import Mathlib

/-!
Verification of the Parthenon output layer (HDF5 writer and boundary
conditions) against its specification.  The definitions below are shallow
embeddings of the C++ code in `src/outputs/parthenon_hdf5.cpp` and
`src/bvals/boundary_conditions.cpp`; machine `int`s are modelled as `Nat`
(all quantities involved are non-negative and far below 2^31), fallible
code returns `Except String`.
-/

namespace Parthenon

/-! ## VarInfo: variable metadata and its wire encoding
(`src/outputs/parthenon_hdf5.cpp`, struct `VarInfo`) -/

/-- `static constexpr int max_vlen = (1 << 16) - 1;` -/
def max_vlen : Nat := (1 <<< 16) - 1

/-- `static constexpr int sparse_flag = (1 << 20);` -/
def sparse_flag : Nat := 1 <<< 20

/-- `static constexpr int vector_flag = (1 << 21);` -/
def vector_flag : Nat := 1 <<< 21

/-- Variable metadata communicated between ranks (struct `VarInfo`). -/
structure VarInfo where
  label : String
  vlen : Nat
  is_sparse : Bool
  is_vector : Bool
  deriving DecidableEq, Repr

/-- `VarInfo::get_info_code`: the vlen in the lower 16 bits, bits 20 and 21
encode the is_sparse and is_vector flags. -/
def VarInfo.get_info_code (v : VarInfo) : Nat :=
  v.vlen + (if v.is_sparse then sparse_flag else 0) +
    (if v.is_vector then vector_flag else 0)

/-- `VarInfo::Decode(label, info_code)`. -/
def VarInfo.Decode (label : String) (info_code : Nat) : VarInfo where
  label := label
  vlen := info_code &&& max_vlen
  is_sparse := decide (info_code &&& sparse_flag > 0)
  is_vector := decide (info_code &&& vector_flag > 0)

lemma max_vlen_eq : max_vlen = 2 ^ 16 - 1 := rfl

lemma sparse_flag_eq : sparse_flag = 2 ^ 20 := rfl

lemma vector_flag_eq : vector_flag = 2 ^ 21 := rfl

lemma and_two_pow_pos_iff (x i : Nat) : x &&& 2 ^ i > 0 ↔ x / 2 ^ i % 2 = 1 := by
  rw [Nat.and_two_pow]
  cases h : x.testBit i
  · rw [Nat.testBit_to_div_mod, decide_eq_false_iff_not] at h
    simp only [Bool.toNat_false, zero_mul]
    exact iff_of_false (lt_irrefl 0) h
  · rw [Nat.testBit_to_div_mod, decide_eq_true_eq] at h
    simp only [Bool.toNat_true, one_mul]
    exact iff_of_true (Nat.two_pow_pos i) h

/-- Round-trip of the wire encoding for in-range component counts. -/
lemma decode_get_info_code (v : VarInfo) (h1 : 1 ≤ v.vlen) (h2 : v.vlen ≤ 65535) :
    VarInfo.Decode v.label v.get_info_code = v := by
  obtain ⟨label, vlen, sp, vec⟩ := v
  simp only at h1 h2
  rw [show VarInfo.Decode label (VarInfo.get_info_code ⟨label, vlen, sp, vec⟩) =
      ⟨label, _, _, _⟩ from rfl, VarInfo.mk.injEq]
  refine ⟨rfl, ?_, ?_, ?_⟩
  · rw [VarInfo.get_info_code, max_vlen_eq, Nat.and_pow_two_sub_one_eq_mod]
    cases sp <;> cases vec <;> simp [sparse_flag_eq, vector_flag_eq] <;> omega
  · rw [VarInfo.get_info_code, sparse_flag_eq, vector_flag_eq]
    cases sp <;> cases vec <;>
      first
      | (rw [decide_eq_true_eq, and_two_pow_pos_iff]; simp <;> omega)
      | (rw [decide_eq_false_iff_not, and_two_pow_pos_iff]; simp <;> omega)
  · rw [VarInfo.get_info_code, sparse_flag_eq, vector_flag_eq]
    cases sp <;> cases vec <;>
      first
      | (rw [decide_eq_true_eq, and_two_pow_pos_iff]; simp <;> omega)
      | (rw [decide_eq_false_iff_not, and_two_pow_pos_iff]; simp <;> omega)

/-! ## The global variable set: `std::set<VarInfo>` and reconciliation
(`src/outputs/parthenon_hdf5.cpp`, `VarInfo::operator<`, `all_unique_vars`
and the MPI allgather block) -/

/-- `VarInfo::operator<`: fatal when two descriptors share a label but
disagree on vlen, otherwise lexicographic comparison of the label
character sequences (`std::string::operator<`). -/
def VarInfo.ltE (a b : VarInfo) : Except String Bool :=
  if a.label = b.label ∧ a.vlen ≠ b.vlen then
    .error ("### ERROR: Got variable " ++ a.label ++
      " with multiple different lengths")
  else
    .ok (decide (a.label.data < b.label.data))

/-- `all_unique_vars.insert(vinfo)`: the ordered set is modelled as a
sorted list; insertion walks the list comparing with `operator<` both
ways, and an equivalent element (neither less) deduplicates, retaining the
element already in the set. -/
def insertVar (v : VarInfo) : List VarInfo → Except String (List VarInfo)
  | [] => .ok [v]
  | w :: ws =>
    match VarInfo.ltE v w with
    | .error e => .error e
    | .ok true => .ok (v :: w :: ws)
    | .ok false =>
      match VarInfo.ltE w v with
      | .error e => .error e
      | .ok true =>
        match insertVar v ws with
        | .error e => .error e
        | .ok l => .ok (w :: l)
      | .ok false => .ok (w :: ws)

/-- Successive insertion of a list of descriptors into the set. -/
def insertAll (vs : List VarInfo) (s : List VarInfo) :
    Except String (List VarInfo) :=
  match vs with
  | [] => .ok s
  | v :: rest =>
    match insertVar v s with
    | .error e => .error e
    | .ok s2 => insertAll rest s2

/-- The label sequence of a descriptor list. -/
def labels (s : List VarInfo) : List String := s.map VarInfo.label

/-- Each rank builds its local `all_unique_vars` from the variables found
on its blocks. -/
def buildLocalSets : List (List VarInfo) → Except String (List (List VarInfo))
  | [] => .ok []
  | r :: rs =>
    match insertAll r [] with
    | .error e => .error e
    | .ok s =>
      match buildLocalSets rs with
      | .error e => .error e
      | .ok ss => .ok (s :: ss)

/-- The reconciliation protocol as seen by rank k: every rank's local set
is serialized in set order as (label, info_code) pairs, the allgather
concatenates them in rank order, and rank k decodes every pair and inserts
the result into its own local set. -/
def reconcile (ranks : List (List VarInfo)) (k : Nat) :
    Except String (List VarInfo) :=
  match buildLocalSets ranks with
  | .error e => .error e
  | .ok locals =>
    insertAll
      ((locals.join).map (fun v => VarInfo.Decode v.label v.get_info_code))
      (locals.getD k [])

@[simp] lemma labels_nil : labels [] = [] := rfl

@[simp] lemma labels_cons (v : VarInfo) (s : List VarInfo) :
    labels (v :: s) = v.label :: labels s := rfl

lemma data_lt_iff (s t : String) : s.data < t.data ↔ s < t :=
  String.lt_iff_toList_lt.symm

lemma ltE_ok (a b : VarInfo) (h : a.label = b.label → a.vlen = b.vlen) :
    VarInfo.ltE a b = .ok (decide (a.label.data < b.label.data)) := by
  rw [VarInfo.ltE, if_neg]
  rintro ⟨h1, h2⟩
  exact h2 (h h1)

/-- Inserting a descriptor that is vlen-consistent with a set never fails,
keeps elements within the inserted pool, adds exactly the new label, and
preserves strict sortedness of the label sequence. -/
lemma insertVar_ok (v : VarInfo) (s : List VarInfo)
    (hc : ∀ w ∈ s, v.label = w.label → v.vlen = w.vlen) :
    ∃ l, insertVar v s = .ok l ∧
      (∀ x ∈ l, x ∈ v :: s) ∧
      (∀ t : String, t ∈ labels l ↔ t = v.label ∨ t ∈ labels s) ∧
      (List.Sorted (· < ·) (labels s) → List.Sorted (· < ·) (labels l)) := by
  induction s with
  | nil =>
    refine ⟨[v], rfl, by simp, by simp, fun _ => ?_⟩
    simp [List.Sorted]
  | cons w ws ih =>
    have hvw := ltE_ok v w (hc w (by simp))
    have hwv := ltE_ok w v (fun h => (hc w (by simp) h.symm).symm)
    rcases lt_trichotomy v.label w.label with hlt | heq | hgt
    · have hd : decide (v.label.data < w.label.data) = true :=
        decide_eq_true ((data_lt_iff _ _).mpr hlt)
      refine ⟨v :: w :: ws, ?_, fun x hx => hx, by simp, ?_⟩
      · rw [insertVar, hvw, hd]
      · intro hs
        rw [labels_cons] at hs ⊢
        rw [List.sorted_cons] at hs ⊢
        refine ⟨?_, List.sorted_cons.mpr hs⟩
        rintro b hb
        rw [labels_cons] at hb
        rcases List.mem_cons.mp hb with rfl | hb
        · exact hlt
        · exact hlt.trans (hs.1 b hb)
    · have hd1 : decide (v.label.data < w.label.data) = false := by
        apply decide_eq_false
        intro hcontra
        rw [heq] at hcontra
        exact lt_irrefl _ hcontra
      have hd2 : decide (w.label.data < v.label.data) = false := by
        apply decide_eq_false
        intro hcontra
        rw [heq] at hcontra
        exact lt_irrefl _ hcontra
      refine ⟨w :: ws, ?_, fun x hx => List.mem_cons_of_mem v hx, ?_, fun hs => hs⟩
      · rw [insertVar, hvw, hd1, hwv, hd2]
      · intro t
        constructor
        · intro ht
          exact Or.inr ht
        · rintro (rfl | ht)
          · rw [labels_cons, heq]
            exact List.mem_cons_self _ _
          · exact ht
    · have hd1 : decide (v.label.data < w.label.data) = false := by
        apply decide_eq_false
        intro hcontra
        exact asymm hgt ((data_lt_iff _ _).mp hcontra)
      have hd2 : decide (w.label.data < v.label.data) = true :=
        decide_eq_true ((data_lt_iff _ _).mpr hgt)
      obtain ⟨l', hins, hsub, hmem, hsort⟩ :=
        ih (fun w' hw' => hc w' (List.mem_cons_of_mem w hw'))
      refine ⟨w :: l', ?_, ?_, ?_, ?_⟩
      · rw [insertVar, hvw, hd1, hwv, hd2, hins]
      · intro x hx
        rcases List.mem_cons.mp hx with rfl | hx
        · exact List.mem_cons_of_mem v (List.mem_cons_self x ws)
        · rcases List.mem_cons.mp (hsub x hx) with rfl | hx2
          · exact List.mem_cons_self x (w :: ws)
          · exact List.mem_cons_of_mem v (List.mem_cons_of_mem w hx2)
      · intro t
        rw [labels_cons, labels_cons, List.mem_cons, hmem t, List.mem_cons]
        tauto
      · intro hs
        rw [labels_cons] at hs ⊢
        obtain ⟨hhead, htail⟩ := List.sorted_cons.mp hs
        refine List.sorted_cons.mpr ⟨?_, hsort htail⟩
        intro b hb
        rcases (hmem b).mp hb with rfl | hb2
        · exact hgt
        · exact hhead b hb2

/-- Successively inserting a vlen-consistent pool of descriptors never
fails and yields the union of the labels, preserving sortedness. -/
lemma insertAll_ok (vs : List VarInfo) :
    ∀ s : List VarInfo,
      (∀ a ∈ vs, ∀ b ∈ vs, a.label = b.label → a.vlen = b.vlen) →
      (∀ a ∈ vs, ∀ b ∈ s, a.label = b.label → a.vlen = b.vlen) →
      ∃ l, insertAll vs s = .ok l ∧
        (∀ x ∈ l, x ∈ vs ++ s) ∧
        (∀ t : String, t ∈ labels l ↔ t ∈ labels vs ∨ t ∈ labels s) ∧
        (List.Sorted (· < ·) (labels s) → List.Sorted (· < ·) (labels l)) := by
  induction vs with
  | nil =>
    intro s _ _
    exact ⟨s, rfl, by simp, by simp, id⟩
  | cons v rest ih =>
    intro s hc hcs
    obtain ⟨s2, hs2, sub2, mem2, sort2⟩ :=
      insertVar_ok v s (hcs v (List.mem_cons_self v rest))
    obtain ⟨l, hl, sub, mem, sort⟩ := ih s2
      (fun a ha b hb => hc a (List.mem_cons_of_mem v ha) b (List.mem_cons_of_mem v hb))
      (fun a ha b hb => by
        rcases List.mem_cons.mp (sub2 b hb) with rfl | hb2
        · exact hc a (List.mem_cons_of_mem b ha) b (List.mem_cons_self b rest)
        · exact hcs a (List.mem_cons_of_mem v ha) b hb2)
    refine ⟨l, ?_, ?_, ?_, fun hs => sort (sort2 hs)⟩
    · rw [insertAll, hs2]
      exact hl
    · intro x hx
      rcases List.mem_append.mp (sub x hx) with hx2 | hx2
      · exact List.mem_append_left s (List.mem_cons_of_mem v hx2)
      · rcases List.mem_cons.mp (sub2 x hx2) with rfl | hx3
        · exact List.mem_append_left s (List.mem_cons_self x rest)
        · exact List.mem_append_right (v :: rest) hx3
    · intro t
      rw [mem t, mem2 t, labels_cons, List.mem_cons]
      tauto

/-- Building the per-rank local sets never fails on a globally
vlen-consistent distribution; each local set draws its elements from the
ranks, carries exactly the labels of its rank, and is sorted. -/
lemma buildLocalSets_ok (ranks : List (List VarInfo))
    (hcons : ∀ r1 ∈ ranks, ∀ r2 ∈ ranks, ∀ a ∈ r1, ∀ b ∈ r2,
      a.label = b.label → a.vlen = b.vlen) :
    ∃ locals, buildLocalSets ranks = .ok locals ∧
      (∀ s ∈ locals,
        (∀ x ∈ s, ∃ r ∈ ranks, x ∈ r) ∧ List.Sorted (· < ·) (labels s)) ∧
      (∀ t : String,
        (∃ s ∈ locals, t ∈ labels s) ↔ (∃ r ∈ ranks, t ∈ labels r)) := by
  induction ranks with
  | nil => exact ⟨[], rfl, by simp, by simp⟩
  | cons r rs ih =>
    obtain ⟨s, hs, ssub, smem, ssort⟩ :=
      insertAll_ok r []
        (fun a ha b hb => hcons r (List.mem_cons_self r rs) r
          (List.mem_cons_self r rs) a ha b hb)
        (fun a _ b hb => by simp at hb)
    obtain ⟨locals, hlocals, lprops, lmem⟩ := ih
      (fun r1 h1 r2 h2 => hcons r1 (List.mem_cons_of_mem r h1) r2
        (List.mem_cons_of_mem r h2))
    refine ⟨s :: locals, ?_, ?_, ?_⟩
    · rw [buildLocalSets, hs, hlocals]
    · intro s' hs'
      rcases List.mem_cons.mp hs' with rfl | hs'2
      · refine ⟨?_, ssort (by simp [List.Sorted])⟩
        intro x hx
        have := ssub x hx
        rw [List.append_nil] at this
        exact ⟨r, List.mem_cons_self r rs, this⟩
      · obtain ⟨hsub', hsort'⟩ := lprops s' hs'2
        exact ⟨fun x hx => by
          obtain ⟨r', hr', hxr'⟩ := hsub' x hx
          exact ⟨r', List.mem_cons_of_mem r hr', hxr'⟩, hsort'⟩
    · intro t
      constructor
      · rintro ⟨s', hs', hts'⟩
        rcases List.mem_cons.mp hs' with rfl | hs'2
        · have := (smem t).mp hts'
          rw [labels_nil] at this
          rcases this with h | h
          · exact ⟨r, List.mem_cons_self r rs, h⟩
          · simp at h
        · obtain ⟨r', hr', htr'⟩ := (lmem t).mp ⟨s', hs'2, hts'⟩
          exact ⟨r', List.mem_cons_of_mem r hr', htr'⟩
      · rintro ⟨r', hr', htr'⟩
        rcases List.mem_cons.mp hr' with rfl | hr'2
        · exact ⟨s, List.mem_cons_self s locals, (smem t).mpr (Or.inl htr')⟩
        · obtain ⟨s', hs', hts'⟩ := (lmem t).mpr ⟨r', hr'2, htr'⟩
          exact ⟨s', List.mem_cons_of_mem s hs', hts'⟩

/-- The label sequence of any descriptor list member. -/
lemma mem_labels_iff (t : String) (s : List VarInfo) :
    t ∈ labels s ↔ ∃ v ∈ s, v.label = t := by
  rw [labels]
  simp [List.mem_map]

/-- Reconciliation on a vlen-consistent distribution with in-range
component counts never fails; the result's label sequence is strictly
sorted and holds exactly the labels present on some rank. -/
lemma reconcile_ok (ranks : List (List VarInfo)) (k : Nat)
    (hvlen : ∀ r ∈ ranks, ∀ v ∈ r, 1 ≤ v.vlen ∧ v.vlen ≤ 65535)
    (hcons : ∀ r1 ∈ ranks, ∀ r2 ∈ ranks, ∀ a ∈ r1, ∀ b ∈ r2,
      a.label = b.label → a.vlen = b.vlen) :
    ∃ l, reconcile ranks k = .ok l ∧
      List.Sorted (· < ·) (labels l) ∧
      (∀ t : String, t ∈ labels l ↔ ∃ r ∈ ranks, ∃ v ∈ r, v.label = t) := by
  obtain ⟨locals, hlocals, lprops, lmem⟩ := buildLocalSets_ok ranks hcons
  have hjoin_sub : ∀ x ∈ locals.join, ∃ r ∈ ranks, x ∈ r := by
    intro x hx
    obtain ⟨s, hs, hxs⟩ := List.mem_join.mp hx
    exact (lprops s hs).1 x hxs
  have hmapid :
      (locals.join).map (fun v => VarInfo.Decode v.label v.get_info_code) =
        locals.join := by
    have hpt : ∀ x ∈ locals.join,
        VarInfo.Decode x.label x.get_info_code = x := by
      intro x hx
      obtain ⟨r, hr, hxr⟩ := hjoin_sub x hx
      obtain ⟨h1, h2⟩ := hvlen r hr x hxr
      exact decode_get_info_code x h1 h2
    calc (locals.join).map (fun v => VarInfo.Decode v.label v.get_info_code)
        = (locals.join).map id := List.map_congr_left hpt
      _ = locals.join := List.map_id _
  have hbase : (∀ x ∈ locals.getD k [], ∃ r ∈ ranks, x ∈ r) ∧
      List.Sorted (· < ·) (labels (locals.getD k [])) := by
    by_cases hk : k < locals.length
    · rw [List.getD_eq_get locals [] hk]
      exact lprops (locals.get ⟨k, hk⟩) (List.get_mem locals k hk)
    · rw [List.getD_eq_default locals [] (Nat.le_of_not_lt hk)]
      exact ⟨by simp, by simp [List.Sorted]⟩
  obtain ⟨l, hl, sub, mem, sort⟩ := insertAll_ok locals.join (locals.getD k [])
    (fun a ha b hb h => by
      obtain ⟨ra, hra, hara⟩ := hjoin_sub a ha
      obtain ⟨rb, hrb, hbrb⟩ := hjoin_sub b hb
      exact hcons ra hra rb hrb a hara b hbrb h)
    (fun a ha b hb h => by
      obtain ⟨ra, hra, hara⟩ := hjoin_sub a ha
      obtain ⟨rb, hrb, hbrb⟩ := hbase.1 b hb
      exact hcons ra hra rb hrb a hara b hbrb h)
  refine ⟨l, ?_, sort hbase.2, ?_⟩
  · rw [reconcile, hlocals]
    show insertAll
      ((locals.join).map (fun v => VarInfo.Decode v.label v.get_info_code))
      (locals.getD k []) = .ok l
    rw [hmapid]
    exact hl
  · intro t
    rw [mem t]
    constructor
    · rintro (h | h)
      · obtain ⟨x, hx, hxt⟩ := (mem_labels_iff t locals.join).mp h
        obtain ⟨r, hr, hxr⟩ := hjoin_sub x hx
        exact ⟨r, hr, x, hxr, hxt⟩
      · obtain ⟨x, hx, hxt⟩ := (mem_labels_iff t (locals.getD k [])).mp h
        obtain ⟨r, hr, hxr⟩ := hbase.1 x hx
        exact ⟨r, hr, x, hxr, hxt⟩
    · rintro ⟨r, hr, v, hv, hlab⟩
      left
      obtain ⟨s, hs, hts⟩ := (lmem t).mpr ⟨r, hr, (mem_labels_iff t r).mpr ⟨v, hv, hlab⟩⟩
      obtain ⟨v', hv', hv't⟩ := (mem_labels_iff t s).mp hts
      exact (mem_labels_iff t locals.join).mpr
        ⟨v', List.mem_join.mpr ⟨s, hs, hv'⟩, hv't⟩

/-! ## Boundary-condition dispatch
(`src/bvals/boundary_conditions.cpp`, `DoPhysicalBoundary_` and
`ApplyBoundaryConditionsOnCoarseOrFine`) -/

/-- `BoundaryFlag` (from `defs.hpp`): the flag values consulted by the
dispatcher. -/
inductive BoundaryFlag where
  | block
  | undef
  | periodic
  | reflect
  | outflow
  | user
  deriving DecidableEq, Repr

/-- `BoundaryFace`: the six logical faces, in the order of the
`boundary_flag` array (`BOUNDARY_NFACES = 6`). -/
inductive BoundaryFace where
  | inner_x1
  | outer_x1
  | inner_x2
  | outer_x2
  | inner_x3
  | outer_x3
  deriving DecidableEq, Repr

/-- `boundary_cond_impl::DoPhysicalBoundary_(flag, face, ndim)`. -/
def DoPhysicalBoundary (flag : BoundaryFlag) (face : BoundaryFace)
    (ndim : Int) : Bool :=
  if flag = .block then false
  else if flag = .undef then false
  else if flag = .periodic then false
  else if ndim < 3 ∧ (face = .inner_x3 ∨ face = .outer_x3) then false
  else if ndim < 2 ∧ (face = .inner_x2 ∨ face = .outer_x2) then false
  else true

/-- The loop body of `ApplyBoundaryConditionsOnCoarseOrFine`: the registered
boundary function for a face is invoked iff `DoPhysicalBoundary_` holds for
that face's flag. -/
def boundaryFunctionInvoked (boundary_flag : BoundaryFace → BoundaryFlag)
    (ndim : Int) (face : BoundaryFace) : Bool :=
  DoPhysicalBoundary (boundary_flag face) face ndim

/-! ## The generic boundary-fill kernel
(`src/bvals/boundary_conditions.cpp`, `BoundaryFunction::GenericBC`) -/

/-- `CoordinateDirection` restricted to `X1DIR`, `X2DIR`, `X3DIR` (the
static_assert in `GenericBC`). -/
inductive Dir where
  | X1
  | X2
  | X3
  deriving DecidableEq, Repr

/-- The integer value of the direction (`X1DIR = 1` etc.), as compared
against `q.VectorComponent(l)`. -/
def Dir.val : Dir → Int
  | .X1 => 1
  | .X2 => 2
  | .X3 => 3

/-- `enum class BCSide { Inner, Outer };` -/
inductive BCSide where
  | Inner
  | Outer
  deriving DecidableEq, Repr

/-- `enum class BCType { Outflow, Reflect };` -/
inductive BCType where
  | Outflow
  | Reflect
  deriving DecidableEq, Repr

/-- The packed variable view inside `GenericBC`: `q(l, k, j, i)` is the
value of packed component `l` at cell (k, j, i), and `vcomp l` is
`q.VectorComponent(l)`. -/
structure BCPack (α : Type) where
  q : Nat → Int → Int → Int → α
  vcomp : Nat → Int

/-- `const int ref = INNER ? range.s : range.e;` -/
def bcRef (side : BCSide) (s e : Int) : Int :=
  match side with
  | .Inner => s
  | .Outer => e

/-- `const int offset = 2 * ref + (INNER ? -1 : 1);` -/
def bcOffset (side : BCSide) (s e : Int) : Int :=
  2 * bcRef side s e + (match side with | .Inner => -1 | .Outer => 1)

/-- The body of the `par_for_bndry` lambda in `GenericBC`. -/
def genericBCCell {α : Type} [Mul α] [Neg α] [One α]
    (dir : Dir) (side : BCSide) (type : BCType) (s e : Int)
    (pack : BCPack α) (l : Nat) (k j i : Int) : α :=
  match type with
  | .Reflect =>
    (if pack.vcomp l = dir.val then (-1 : α) else 1) *
      pack.q l (if dir = .X3 then bcOffset side s e - k else k)
        (if dir = .X2 then bcOffset side s e - j else j)
        (if dir = .X1 then bcOffset side s e - i else i)
  | .Outflow =>
    pack.q l (if dir = .X3 then bcRef side s e else k)
      (if dir = .X2 then bcRef side s e else j)
      (if dir = .X1 then bcRef side s e else i)

/-- Modelled from the spec: the iteration domain of `par_for_bndry`
(declared in the external meshblock interface, not part of this
repository's sources) covers exactly the ghost cells of the chosen face,
i.e. the cells whose index in the face's direction lies outside the
interior range [s, e] on the face's side; the other two directions are
unconstrained here. -/
def inGhostRegion (dir : Dir) (side : BCSide) (s e : Int)
    (k j i : Int) : Bool :=
  let c := match dir with | .X1 => i | .X2 => j | .X3 => k
  match side with
  | .Inner => c < s
  | .Outer => c > e

/-- `GenericBC<DIR, SIDE, TYPE>` as a transformation of the packed data:
cells in the ghost region of the face get the kernel value, all other
cells are untouched. -/
def genericBC {α : Type} [Mul α] [Neg α] [One α]
    (dir : Dir) (side : BCSide) (type : BCType) (s e : Int)
    (pack : BCPack α) (l : Nat) (k j i : Int) : α :=
  if inGhostRegion dir side s e k j i then
    genericBCCell dir side type s e pack l k j i
  else
    pack.q l k j i

/-- The mirror offset exactly as the specification words it:
`2*s - 1` for the Inner side and `2*e + 1` for the Outer side. -/
def specMirror (side : BCSide) (s e : Int) : Int :=
  match side with
  | .Inner => 2 * s - 1
  | .Outer => 2 * e + 1

lemma bcOffset_eq_specMirror (side : BCSide) (s e : Int) :
    bcOffset side s e = specMirror side s e := by
  cases side <;> simp [bcOffset, bcRef, specMirror] <;> ring

/-! ## Parallel-write offsets
(`src/outputs/parthenon_hdf5.cpp`, the `my_offset` loop and `local_offset`) -/

/-- `hsize_t my_offset = 0; for (int i = 0; i < Globals::my_rank; i++)
my_offset += nblist[i];` -/
def myOffset (nblist : List Nat) (my_rank : Nat) : Nat :=
  (List.range my_rank).foldl (fun acc i => acc + nblist.getD i 0) 0

/-- `const std::array<hsize_t, 5> local_offset({my_offset, 0, 0, 0, 0});`
used unchanged for every dataset written. -/
def localOffset (nblist : List Nat) (my_rank : Nat) : List Nat :=
  [myOffset nblist my_rank, 0, 0, 0, 0]

lemma myOffset_zero (nblist : List Nat) : myOffset nblist 0 = 0 := rfl

lemma myOffset_eq_sum_take (nblist : List Nat) (r : Nat) :
    myOffset nblist r = (nblist.take r).sum := by
  induction r with
  | zero => simp [myOffset]
  | succ n ih =>
    rw [myOffset, List.range_succ, List.foldl_append]
    rw [show (List.range n).foldl (fun acc i => acc + nblist.getD i 0) 0 =
        myOffset nblist n from rfl, ih]
    simp only [List.foldl_cons, List.foldl_nil, List.take_succ, List.sum_append]
    cases h : nblist[n]? with
    | none => simp [List.getD, h]
    | some x => simp [List.getD, h]

/-! ## Per-variable write-buffer packing
(`src/outputs/parthenon_hdf5.cpp`, the packing loop in
`PHDF5Output::WriteOutputFileImpl`) -/

/-- A live variable on a block as seen by the packing loop: its label and
its raw `(component, k, j, i)`-indexed data. -/
structure OutVar (α : Type) where
  label : String
  data : Nat → Nat → Nat → Nat → α

/-- The variables the `MeshBlockDataIterator` yields on one local block. -/
structure LocalBlock (α : Type) where
  vars : List (OutVar α)

/-- An inclusive index range (`out_kb`, `out_jb`, `out_ib`). -/
structure IdxRange where
  s : Nat
  e : Nat

/-- The list of indices visited by `for (int i = rng.s; i <= rng.e; ++i)`. -/
def IdxRange.toList (rng : IdxRange) : List Nat :=
  (List.range (rng.e + 1 - rng.s)).map (· + rng.s)

/-- `varSize * vlen`: the number of buffer slots for one block and one
variable (`nx3 * nx2 * nx1 * vlen`). -/
def regionSize (kb jb ib : IdxRange) (vlen : Nat) : Nat :=
  (kb.e + 1 - kb.s) * ((jb.e + 1 - jb.s) * ((ib.e + 1 - ib.s) * vlen))

/-- The copy loops `for k ... for j ... for i ... for l ...
tmpData[index++] = v_h(l, k, j, i)`. -/
def copyVar {α : Type} (kb jb ib : IdxRange) (vlen : Nat) (v : OutVar α) :
    List α :=
  kb.toList.flatMap fun k => jb.toList.flatMap fun j =>
    ib.toList.flatMap fun i => (List.range vlen).map fun l => v.data l k j i

/-- The per-block body of the packing loop: find the variable on the block
(first label match); a missing sparse variable leaves its region
zero-filled, a missing dense variable is a fatal error naming the
variable.  Returns the block's buffer region and the `found` flag (the
value stored into `sparse_expanded` when the variable is sparse). -/
def packBlock {α : Type} [Zero α] (vinfo : VarInfo) (kb jb ib : IdxRange)
    (b : LocalBlock α) : Except String (List α × Bool) :=
  match b.vars.find? (fun v => v.label == vinfo.label) with
  | some v => .ok (copyVar kb jb ib vinfo.vlen v, true)
  | none =>
    if vinfo.is_sparse then
      .ok (List.replicate (regionSize kb jb ib vinfo.vlen) 0, false)
    else
      .error ("### ERROR: Unable to find dense variable " ++ vinfo.label)

/-- The packing loop over this rank's local blocks, in block order. -/
def packBlocks {α : Type} [Zero α] (vinfo : VarInfo) (kb jb ib : IdxRange) :
    List (LocalBlock α) → Except String (List (List α × Bool))
  | [] => .ok []
  | b :: bs =>
    match packBlock vinfo kb jb ib b with
    | .error e => .error e
    | .ok r =>
      match packBlocks vinfo kb jb ib bs with
      | .error e => .error e
      | .ok rs => .ok (r :: rs)

/-- `found_any`: whether any local block had the variable; the collective
write `HDF5WriteND` for the variable is issued iff this is true
(`if (found_any) { ... }`). -/
def writeIssued {α : Type} [Zero α] (vinfo : VarInfo) (kb jb ib : IdxRange)
    (blocks : List (LocalBlock α)) : Except String Bool :=
  match packBlocks vinfo kb jb ib blocks with
  | .error e => .error e
  | .ok rs => .ok (rs.any (·.2))

/-- Whether a block's variable list contains a label (the `found` flag). -/
def hasVar {α : Type} (b : LocalBlock α) (label : String) : Bool :=
  b.vars.any (fun v => v.label == label)

lemma any_map_comp {α β : Type} (f : α → β) (p : β → Bool) (l : List α) :
    (l.map f).any p = l.any (p ∘ f) := by
  induction l with
  | nil => rfl
  | cons x xs ih => simp [List.any_cons, ih]

lemma find?_isSome_eq_any {α : Type} (p : α → Bool) (l : List α) :
    (l.find? p).isSome = l.any p := by
  induction l with
  | nil => rfl
  | cons x xs ih =>
    rw [List.find?_cons, List.any_cons]
    cases h : p x
    · simpa [h] using ih
    · simp [h]

lemma find?_isSome_iff_hasVar {α : Type} (b : LocalBlock α) (label : String) :
    (b.vars.find? (fun v => v.label == label)).isSome = hasVar b label :=
  find?_isSome_eq_any _ _

lemma find?_eq_none_of_hasVar_false {α : Type} (b : LocalBlock α)
    (label : String) (h : hasVar b label = false) :
    b.vars.find? (fun v => v.label == label) = none := by
  have h2 := find?_isSome_iff_hasVar b label
  rw [h] at h2
  exact Option.not_isSome_iff_eq_none.mp (by rw [h2]; simp)

/-- A missing dense variable on any local block aborts the packing loop
with a fatal error naming the variable. -/
lemma packBlocks_dense_missing {α : Type} [Zero α] (vinfo : VarInfo)
    (kb jb ib : IdxRange) (blocks : List (LocalBlock α))
    (hd : vinfo.is_sparse = false)
    (hmiss : ∃ b ∈ blocks, hasVar b vinfo.label = false) :
    packBlocks vinfo kb jb ib blocks =
      .error ("### ERROR: Unable to find dense variable " ++ vinfo.label) := by
  induction blocks with
  | nil => simp at hmiss
  | cons b bs ih =>
    rw [packBlocks]
    cases hv : hasVar b vinfo.label
    · rw [packBlock, find?_eq_none_of_hasVar_false b vinfo.label hv]
      rw [if_neg (by simp [hd])]
    · obtain ⟨b', hb', hbv⟩ := hmiss
      have hb's : b' ∈ bs := by
        rcases List.mem_cons.mp hb' with h | h
        · rw [h] at hbv; rw [hv] at hbv; exact absurd hbv (by simp)
        · exact h
      have hsome : (b.vars.find? (fun v => v.label == vinfo.label)).isSome = true := by
        rw [find?_isSome_iff_hasVar, hv]
      obtain ⟨v, hvfind⟩ := Option.isSome_iff_exists.mp hsome
      rw [packBlock, hvfind]
      rw [ih ⟨b', hb's, hbv⟩]

/-- A sparse variable never aborts the packing loop: every block yields a
region and a `found` flag; blocks without the variable get a zero-filled
region and a `false` flag. -/
lemma packBlocks_sparse_ok {α : Type} [Zero α] (vinfo : VarInfo)
    (kb jb ib : IdxRange) (blocks : List (LocalBlock α))
    (hs : vinfo.is_sparse = true) :
    ∃ rs, packBlocks vinfo kb jb ib blocks = .ok rs ∧
      rs.map Prod.snd = blocks.map (fun b => hasVar b vinfo.label) ∧
      ∀ idx (h1 : idx < blocks.length) (h2 : idx < rs.length),
        hasVar (blocks.get ⟨idx, h1⟩) vinfo.label = false →
          (rs.get ⟨idx, h2⟩).1 =
            List.replicate (regionSize kb jb ib vinfo.vlen) 0 := by
  induction blocks with
  | nil => exact ⟨[], rfl, rfl, fun idx h1 => by simp at h1⟩
  | cons b bs ih =>
    obtain ⟨rs, hrs, hmap, hzero⟩ := ih
    cases hv : hasVar b vinfo.label
    · refine ⟨(List.replicate (regionSize kb jb ib vinfo.vlen) 0, false) :: rs,
        ?_, ?_, ?_⟩
      · rw [packBlocks, packBlock, find?_eq_none_of_hasVar_false b vinfo.label hv,
          if_pos (by simp [hs]), hrs]
      · simp only [List.map_cons, hmap, hv]
      · intro idx h1 h2 hmissing
        cases idx with
        | zero => rfl
        | succ n =>
          exact hzero n (by simpa using h1) (by simpa using h2) (by simpa using hmissing)
    · have hsome : (b.vars.find? (fun v => v.label == vinfo.label)).isSome = true := by
        rw [find?_isSome_iff_hasVar, hv]
      obtain ⟨v, hvfind⟩ := Option.isSome_iff_exists.mp hsome
      refine ⟨(copyVar kb jb ib vinfo.vlen v, true) :: rs, ?_, ?_, ?_⟩
      · rw [packBlocks, packBlock, hvfind, hrs]
      · simp only [List.map_cons, hmap, hv]
      · intro idx h1 h2 hmissing
        cases idx with
        | zero => simp only [List.get] at hmissing; rw [hv] at hmissing; cases hmissing
        | succ n =>
          exact hzero n (by simpa using h1) (by simpa using h2) (by simpa using hmissing)

/-! ## Reconciliation label-buffer parsing
(`src/outputs/parthenon_hdf5.cpp`, the label-unpacking `while` loop) -/

/-- The label-unpacking loop: scan for the next `'\t'` (`strchr`); no
separator before the end of the buffer is fatal, a separator at the current
position (an empty label) is fatal; otherwise the characters before the
separator form the next label. -/
def parseLabels (buf : List Char) : Except String (List String) :=
  if buf = [] then .ok []
  else if h : buf.dropWhile (· != '\t') = [] then
    .error "### ERROR: all_labels_buffer does not end with \t"
  else if buf.takeWhile (· != '\t') = [] then
    .error "### ERROR: Got an empty label"
  else
    match parseLabels ((buf.dropWhile (· != '\t')).tail) with
    | .error e => .error e
    | .ok rest => .ok (String.mk (buf.takeWhile (· != '\t')) :: rest)
  termination_by buf.length
  decreasing_by
    have h1 : (buf.dropWhile (· != '\t')).length ≤ buf.length :=
      (List.dropWhile_sublist (· != '\t')).length_le
    have h2 : (buf.dropWhile (· != '\t')).length ≠ 0 := by
      simpa [List.length_eq_zero] using h
    simp only [List.length_tail]
    omega

/-- The serialization side (`label_buffer += vi.label + "\t";`). -/
def serializeLabels (labels : List String) : List Char :=
  (labels.map (fun s => s.data ++ ['\t'])).join

lemma takeWhile_append_tab (l r : List Char) (hl : ∀ x ∈ l, x ≠ '\t') :
    (l ++ '\t' :: r).takeWhile (· != '\t') = l := by
  induction l with
  | nil => simp [List.takeWhile]
  | cons c cs ih =>
    have hc : c ≠ '\t' := hl c (by simp)
    simp only [List.cons_append, List.takeWhile_cons]
    rw [if_pos (by simpa using hc), ih (fun x hx => hl x (by simp [hx]))]

lemma dropWhile_append_tab (l r : List Char) (hl : ∀ x ∈ l, x ≠ '\t') :
    (l ++ '\t' :: r).dropWhile (· != '\t') = '\t' :: r := by
  induction l with
  | nil => simp [List.dropWhile]
  | cons c cs ih =>
    have hc : c ≠ '\t' := hl c (by simp)
    simp only [List.cons_append, List.dropWhile_cons]
    rw [if_pos (by simpa using hc), ih (fun x hx => hl x (by simp [hx]))]

/-- One step of parsing: a nonempty tab-free label followed by the
separator and the rest of the buffer. -/
lemma parseLabels_append (l r : List Char)
    (hne : l ≠ []) (htab : ∀ x ∈ l, x ≠ '\t') :
    parseLabels (l ++ '\t' :: r) = (parseLabels r).map (String.mk l :: ·) := by
  rw [parseLabels]
  rw [if_neg (by simp)]
  rw [dif_neg (by rw [dropWhile_append_tab l r htab]; simp)]
  rw [if_neg (by rw [takeWhile_append_tab l r htab]; exact hne)]
  rw [dropWhile_append_tab l r htab, takeWhile_append_tab l r htab,
    List.tail_cons]
  cases h : parseLabels r <;> simp [h, Except.map]

lemma parseLabels_append_ok (l r : List Char) (ls : List String)
    (hne : l ≠ []) (htab : ∀ x ∈ l, x ≠ '\t') (hr : parseLabels r = .ok ls) :
    parseLabels (l ++ '\t' :: r) = .ok (String.mk l :: ls) := by
  rw [parseLabels_append l r hne htab, hr]
  rfl

/-- Parsing inverts serialization when every label is nonempty and
tab-free. -/
lemma parseLabels_serializeLabels (labels : List String)
    (h : ∀ s ∈ labels, s.data ≠ [] ∧ ∀ x ∈ s.data, x ≠ '\t') :
    parseLabels (serializeLabels labels) = .ok labels := by
  induction labels with
  | nil => simp [serializeLabels, parseLabels]
  | cons s rest ih =>
    obtain ⟨hne, htab⟩ := h s (by simp)
    have hser : serializeLabels (s :: rest) = s.data ++ '\t' :: serializeLabels rest := by
      simp [serializeLabels]
    rw [hser, parseLabels_append_ok s.data (serializeLabels rest) rest hne htab
      (ih (fun t ht => h t (by simp [ht])))]

end Parthenon

/-- Claim C1: for every label and every descriptor with component count in
[1, 65535] and any sparse/vector flags, `Decode(label, Encode(descriptor))`
equals the original descriptor in component count and both flags; the
encoding packs the component count in the low 16 bits and the flags in
higher bits, so decoding is lossless under this precondition. -/
theorem C1_encode_decode_roundtrip (v : Parthenon.VarInfo)
    (h1 : 1 ≤ v.vlen) (h2 : v.vlen ≤ 65535) :
    Parthenon.VarInfo.Decode v.label v.get_info_code = v :=
  Parthenon.decode_get_info_code v h1 h2

/-- Witness for C1 at a concrete descriptor. -/
theorem C1_encode_decode_roundtrip_witness :
    1 ≤ (7 : Nat) ∧ (7 : Nat) ≤ 65535 ∧
      Parthenon.VarInfo.Decode "rho" (Parthenon.VarInfo.get_info_code
        ⟨"rho", 7, true, false⟩) = ⟨"rho", 7, true, false⟩ :=
  ⟨by decide, by decide,
    C1_encode_decode_roundtrip ⟨"rho", 7, true, false⟩ (by decide) (by decide)⟩

/-- Claim C2: the reconciled global variable set is the deduplicated union
of the rank-local sets ordered lexicographically by label, and the order
is deterministic: any two distributions carrying the same labels (however
the descriptors are spread over ranks) reconcile, on any rank, to the same
label sequence, which is strictly sorted and holds exactly the labels
contributed by some rank. -/
theorem C2_reconciliation_deterministic_order
    (ranks1 ranks2 : List (List Parthenon.VarInfo)) (k1 k2 : Nat)
    (hv1 : ∀ r ∈ ranks1, ∀ v ∈ r, 1 ≤ v.vlen ∧ v.vlen ≤ 65535)
    (hc1 : ∀ ra ∈ ranks1, ∀ rb ∈ ranks1, ∀ a ∈ ra, ∀ b ∈ rb,
      a.label = b.label → a.vlen = b.vlen)
    (hv2 : ∀ r ∈ ranks2, ∀ v ∈ r, 1 ≤ v.vlen ∧ v.vlen ≤ 65535)
    (hc2 : ∀ ra ∈ ranks2, ∀ rb ∈ ranks2, ∀ a ∈ ra, ∀ b ∈ rb,
      a.label = b.label → a.vlen = b.vlen)
    (hsub12 : ∀ r ∈ ranks1, ∀ v ∈ r, ∃ r2 ∈ ranks2, ∃ v2 ∈ r2, v2.label = v.label)
    (hsub21 : ∀ r ∈ ranks2, ∀ v ∈ r, ∃ r1 ∈ ranks1, ∃ v1 ∈ r1, v1.label = v.label) :
    ∃ l1 l2, Parthenon.reconcile ranks1 k1 = .ok l1 ∧
      Parthenon.reconcile ranks2 k2 = .ok l2 ∧
      List.Sorted (· < ·) (Parthenon.labels l1) ∧
      (∀ t : String, t ∈ Parthenon.labels l1 ↔
        ∃ r ∈ ranks1, ∃ v ∈ r, v.label = t) ∧
      Parthenon.labels l2 = Parthenon.labels l1 := by
  obtain ⟨l1, h1, s1, m1⟩ := Parthenon.reconcile_ok ranks1 k1 hv1 hc1
  obtain ⟨l2, h2, s2, m2⟩ := Parthenon.reconcile_ok ranks2 k2 hv2 hc2
  refine ⟨l1, l2, h1, h2, s1, m1, ?_⟩
  haveI hirr : IsIrrefl String (· < ·) := ⟨lt_irrefl⟩
  have hnd1 : (Parthenon.labels l1).Nodup := s1.nodup
  have hnd2 : (Parthenon.labels l2).Nodup := s2.nodup
  have hiff : ∀ t, t ∈ Parthenon.labels l2 ↔ t ∈ Parthenon.labels l1 := by
    intro t
    rw [m1 t, m2 t]
    constructor
    · rintro ⟨r, hr, v, hv, rfl⟩
      exact hsub21 r hr v hv
    · rintro ⟨r, hr, v, hv, rfl⟩
      exact hsub12 r hr v hv
  have hperm : (Parthenon.labels l2).Perm (Parthenon.labels l1) :=
    (List.perm_ext_iff_of_nodup hnd2 hnd1).mpr hiff
  haveI : IsAntisymm String (· < ·) := ⟨fun a b ha hb => (asymm ha hb).elim⟩
  exact List.eq_of_perm_of_sorted hperm s2 s1

/-- Witness for C2: the spec's example, rank-local sets {"b": dense 2,
"a": sparse 1} and {"c": dense 1}, redistributed differently in the second
collection; the reconciled order is ["a", "b", "c"] on both. -/
theorem C2_reconciliation_deterministic_order_witness :
    (∀ r ∈ [[(⟨"b", 2, false, false⟩ : Parthenon.VarInfo), ⟨"a", 1, true, false⟩],
        [⟨"c", 1, false, false⟩]], ∀ v ∈ r, 1 ≤ v.vlen ∧ v.vlen ≤ 65535) ∧
    Parthenon.reconcile
        [[⟨"b", 2, false, false⟩, ⟨"a", 1, true, false⟩],
          [⟨"c", 1, false, false⟩]] 0 =
      .ok [⟨"a", 1, true, false⟩, ⟨"b", 2, false, false⟩,
        ⟨"c", 1, false, false⟩] ∧
    Parthenon.labels [(⟨"a", 1, true, false⟩ : Parthenon.VarInfo),
      ⟨"b", 2, false, false⟩, ⟨"c", 1, false, false⟩] = ["a", "b", "c"] ∧
    (∃ l1 l2,
      Parthenon.reconcile
          [[⟨"b", 2, false, false⟩, ⟨"a", 1, true, false⟩],
            [⟨"c", 1, false, false⟩]] 0 = .ok l1 ∧
      Parthenon.reconcile
          [[⟨"c", 1, false, false⟩],
            [⟨"a", 1, true, false⟩, ⟨"b", 2, false, false⟩]] 1 = .ok l2 ∧
      List.Sorted (· < ·) (Parthenon.labels l1) ∧
      (∀ t : String, t ∈ Parthenon.labels l1 ↔
        ∃ r ∈ [[(⟨"b", 2, false, false⟩ : Parthenon.VarInfo),
          ⟨"a", 1, true, false⟩], [⟨"c", 1, false, false⟩]],
          ∃ v ∈ r, v.label = t) ∧
      Parthenon.labels l2 = Parthenon.labels l1) :=
  ⟨by decide, rfl, rfl,
    C2_reconciliation_deterministic_order
      [[⟨"b", 2, false, false⟩, ⟨"a", 1, true, false⟩], [⟨"c", 1, false, false⟩]]
      [[⟨"c", 1, false, false⟩], [⟨"a", 1, true, false⟩, ⟨"b", 2, false, false⟩]]
      0 1 (by decide) (by decide) (by decide) (by decide) (by decide) (by decide)⟩

/-- Claim C10: inserting two descriptors with the same label and the same
component count but different sparse/vector flags into the global variable
set raises no error and deduplicates them to a single entry retaining the
first descriptor, discarding the later one's flags; the fatal mismatch
check in `operator<` fires only on component-count disagreement, never on
the flags. -/
theorem C10_duplicate_flags_silently_deduped (v w : Parthenon.VarInfo)
    (hlab : w.label = v.label) (hvlen : w.vlen = v.vlen)
    (hflags : w.is_sparse ≠ v.is_sparse ∨ w.is_vector ≠ v.is_vector) :
    Parthenon.insertAll [v, w] [] = .ok [v] ∧
    (∀ a b : Parthenon.VarInfo, a.vlen = b.vlen →
      ∃ c, Parthenon.VarInfo.ltE a b = .ok c) := by
  constructor
  · have hwv : Parthenon.VarInfo.ltE w v = .ok false := by
      rw [Parthenon.ltE_ok w v (fun _ => hvlen), hlab]
      rw [decide_eq_false (lt_irrefl v.label.data)]
    have hvw : Parthenon.VarInfo.ltE v w = .ok false := by
      rw [Parthenon.ltE_ok v w (fun _ => hvlen.symm), hlab]
      rw [decide_eq_false (lt_irrefl v.label.data)]
    show Parthenon.insertAll [v, w] [] = .ok [v]
    rw [Parthenon.insertAll]
    rw [show Parthenon.insertVar v [] = .ok [v] from rfl]
    show Parthenon.insertAll [w] [v] = .ok [v]
    rw [Parthenon.insertAll, Parthenon.insertVar, hwv, hvw]
    rfl
  · intro a b hab
    exact ⟨_, Parthenon.ltE_ok a b (fun _ => hab)⟩

/-- Witness for C10: same label "x", same component count 3, opposite
flags; the set keeps the first descriptor. -/
theorem C10_duplicate_flags_silently_deduped_witness :
    Parthenon.insertAll
        [(⟨"x", 3, true, false⟩ : Parthenon.VarInfo), ⟨"x", 3, false, true⟩]
        [] = .ok [⟨"x", 3, true, false⟩] :=
  (C10_duplicate_flags_silently_deduped ⟨"x", 3, true, false⟩
    ⟨"x", 3, false, true⟩ rfl rfl (Or.inl (by decide))).1

/-- Claim C3: for the Reflect fill on face (dir, side), every ghost cell at
an index outside the interior range [s, e] in that direction is assigned
the value at the mirrored index `offset - idx`, with `offset = 2*s - 1` for
the Inner side and `offset = 2*e + 1` for the Outer side and the other
directions' indices unchanged; the sign is flipped exactly when the packed
component being copied is the vector component aligned with the
boundary-normal direction. -/
theorem C3_reflect_boundary {α : Type} [Mul α] [Neg α] [One α]
    (dir : Parthenon.Dir) (side : Parthenon.BCSide) (s e : Int)
    (pack : Parthenon.BCPack α) (l : Nat) (k j i : Int)
    (hghost : Parthenon.inGhostRegion dir side s e k j i = true) :
    Parthenon.genericBC dir side .Reflect s e pack l k j i =
      (if pack.vcomp l = dir.val then (-1 : α) else 1) *
        pack.q l
          (if dir = .X3 then Parthenon.specMirror side s e - k else k)
          (if dir = .X2 then Parthenon.specMirror side s e - j else j)
          (if dir = .X1 then Parthenon.specMirror side s e - i else i) := by
  rw [Parthenon.genericBC, if_pos hghost]
  rw [Parthenon.genericBCCell, Parthenon.bcOffset_eq_specMirror]

/-- Witness for C3: interior [s=4, e=10], Inner side along X1, ghost index
i = 3 reads the interior index 2*4-1-3 = 4, unflipped for a non-aligned
component. -/
theorem C3_reflect_boundary_witness :
    Parthenon.inGhostRegion .X1 .Inner 4 10 0 0 3 = true ∧
    Parthenon.genericBC .X1 .Inner .Reflect 4 10
        ⟨fun _ _ _ i => (i : ℤ), fun _ => 0⟩ 0 0 0 3 = 4 := by
  refine ⟨by decide, ?_⟩
  have h := C3_reflect_boundary (α := ℤ) .X1 .Inner 4 10
    ⟨fun _ _ _ i => (i : ℤ), fun _ => 0⟩ 0 0 0 3 (by decide)
  rw [h]
  simp [Parthenon.specMirror, Parthenon.Dir.val]

/-- Claim C7: for the Outflow fill on face (dir, side), every ghost cell at
an index outside the interior range [s, e] in the face's direction is
assigned exactly the value at the face's reference interior index (s for
Inner, e for Outer), with no sign change, for every packed component;
indices in the other two directions are unchanged. -/
theorem C7_outflow_boundary {α : Type} [Mul α] [Neg α] [One α]
    (dir : Parthenon.Dir) (side : Parthenon.BCSide) (s e : Int)
    (pack : Parthenon.BCPack α) (l : Nat) (k j i : Int)
    (hghost : Parthenon.inGhostRegion dir side s e k j i = true) :
    Parthenon.genericBC dir side .Outflow s e pack l k j i =
      pack.q l
        (if dir = .X3 then Parthenon.bcRef side s e else k)
        (if dir = .X2 then Parthenon.bcRef side s e else j)
        (if dir = .X1 then Parthenon.bcRef side s e else i) ∧
    Parthenon.bcRef .Inner s e = s ∧ Parthenon.bcRef .Outer s e = e := by
  refine ⟨?_, rfl, rfl⟩
  rw [Parthenon.genericBC, if_pos hghost]
  rfl

/-- Witness for C7: interior [s=4, e=10], Outer side along X2, ghost index
j = 12 copies the value at j = 10 unmodified. -/
theorem C7_outflow_boundary_witness :
    Parthenon.inGhostRegion .X2 .Outer 4 10 0 12 5 = true ∧
    Parthenon.genericBC .X2 .Outer .Outflow 4 10
        ⟨fun _ _ j _ => (j : ℤ), fun _ => 2⟩ 0 0 12 5 = 10 := by
  refine ⟨by decide, ?_⟩
  have h := (C7_outflow_boundary (α := ℤ) .X2 .Outer 4 10
    ⟨fun _ _ j _ => (j : ℤ), fun _ => 2⟩ 0 0 12 5 (by decide)).1
  rw [h]
  simp [Parthenon.bcRef]

/-- Claim C8: the physical boundary function of a face is invoked by the
dispatcher iff the face's flag is none of block-internal, periodic or
undefined, and the face is dimensionally valid: an x3 face function is never
invoked when ndim < 3 and an x2 face function is never invoked when
ndim < 2, even if a reflecting flag is registered. -/
theorem C8_dispatch_gating (boundary_flag : Parthenon.BoundaryFace → Parthenon.BoundaryFlag)
    (ndim : Int) (face : Parthenon.BoundaryFace) :
    Parthenon.boundaryFunctionInvoked boundary_flag ndim face = true ↔
      (boundary_flag face ≠ .block ∧ boundary_flag face ≠ .periodic ∧
        boundary_flag face ≠ .undef ∧
        ¬(ndim < 3 ∧ (face = .inner_x3 ∨ face = .outer_x3)) ∧
        ¬(ndim < 2 ∧ (face = .inner_x2 ∨ face = .outer_x2))) := by
  unfold Parthenon.boundaryFunctionInvoked Parthenon.DoPhysicalBoundary
  rcases h : boundary_flag face <;> rcases face <;> simp_all

/-- Claim C4: during write-buffer packing, a block lacking a dense variable
of the global set is a fatal error naming the variable; a block lacking a
sparse variable raises no error, its region of the staging buffer stays
zero-filled, and its `sparse_expanded` (SparseAllocationMap) entry is
false; blocks that do have the variable get a true entry. -/
theorem C4_dense_missing_fatal_sparse_zero_filled {α : Type} [Zero α]
    (vinfo : Parthenon.VarInfo) (kb jb ib : Parthenon.IdxRange)
    (blocks : List (Parthenon.LocalBlock α)) (idx : Nat)
    (h : idx < blocks.length) :
    (vinfo.is_sparse = false →
      Parthenon.hasVar (blocks.get ⟨idx, h⟩) vinfo.label = false →
      Parthenon.packBlocks vinfo kb jb ib blocks =
        .error ("### ERROR: Unable to find dense variable " ++ vinfo.label)) ∧
    (vinfo.is_sparse = true →
      ∃ rs, Parthenon.packBlocks vinfo kb jb ib blocks = .ok rs ∧
        rs.map Prod.snd = blocks.map (fun b => Parthenon.hasVar b vinfo.label) ∧
        ∀ h2 : idx < rs.length,
          Parthenon.hasVar (blocks.get ⟨idx, h⟩) vinfo.label = false →
            (rs.get ⟨idx, h2⟩).1 =
              List.replicate (Parthenon.regionSize kb jb ib vinfo.vlen) 0) := by
  constructor
  · intro hd hmiss
    exact Parthenon.packBlocks_dense_missing vinfo kb jb ib blocks hd
      ⟨blocks.get ⟨idx, h⟩, List.get_mem blocks idx h, hmiss⟩
  · intro hs
    obtain ⟨rs, hrs, hmap, hzero⟩ :=
      Parthenon.packBlocks_sparse_ok vinfo kb jb ib blocks hs
    exact ⟨rs, hrs, hmap, fun h2 => hzero idx h h2⟩

/-- Witness for C4 at a concrete input: a single block with no variables
and a dense descriptor. -/
theorem C4_dense_missing_fatal_sparse_zero_filled_witness :
    Parthenon.VarInfo.is_sparse ⟨"d", 1, false, false⟩ = false ∧
    Parthenon.hasVar (⟨[]⟩ : Parthenon.LocalBlock ℤ) "d" = false ∧
    Parthenon.packBlocks ⟨"d", 1, false, false⟩ ⟨0, 0⟩ ⟨0, 0⟩ ⟨0, 0⟩
        ([⟨[]⟩] : List (Parthenon.LocalBlock ℤ)) =
      .error "### ERROR: Unable to find dense variable d" :=
  ⟨rfl, rfl,
    (C4_dense_missing_fatal_sparse_zero_filled ⟨"d", 1, false, false⟩
      ⟨0, 0⟩ ⟨0, 0⟩ ⟨0, 0⟩ [⟨[]⟩] 0 (by decide)).1 rfl rfl⟩

/-- Claim C5 counterexample: a rank none of whose local blocks has the
(sparse) variable does skip the collective write call: `found_any` is
false there and the `if (found_any)` gate suppresses `HDF5WriteND`, so it
is not the case that all ranks call the write when their buffer is all
zero. -/
theorem C5_symmetric_participation_counterexample :
    Parthenon.writeIssued ⟨"sv", 1, true, false⟩ ⟨0, 0⟩ ⟨0, 0⟩ ⟨0, 0⟩
        ([⟨[]⟩] : List (Parthenon.LocalBlock ℤ)) = .ok false ∧
    (Except.ok false : Except String Bool) ≠ .ok true := by
  exact ⟨rfl, by simp⟩

/-- Claim C5 as amended: a rank issues the collective write for a (sparse)
variable iff at least one of its *local* blocks has the variable — its
local `found_any`; a rank whose local `found_any` is false skips the
collective call entirely (hence participation is not symmetric across
ranks). -/
theorem C5_write_gate_local_found_any {α : Type} [Zero α]
    (vinfo : Parthenon.VarInfo) (kb jb ib : Parthenon.IdxRange)
    (blocks : List (Parthenon.LocalBlock α)) (hs : vinfo.is_sparse = true) :
    Parthenon.writeIssued vinfo kb jb ib blocks =
      .ok (blocks.any (fun b => Parthenon.hasVar b vinfo.label)) := by
  obtain ⟨rs, hrs, hmap, -⟩ :=
    Parthenon.packBlocks_sparse_ok vinfo kb jb ib blocks hs
  rw [Parthenon.writeIssued, hrs]
  have h2 : rs.any (fun x => x.2) =
      blocks.any (fun b => Parthenon.hasVar b vinfo.label) := by
    have h3 := congrArg (fun l => l.any id) hmap
    simpa [Parthenon.any_map_comp, Function.comp] using h3
  show Except.ok (rs.any (fun x => x.2)) = _
  rw [h2]

/-- Witness for the amended C5 at a concrete input: one empty block and one
block carrying the sparse variable; the rank's write is issued. -/
theorem C5_write_gate_local_found_any_witness :
    Parthenon.VarInfo.is_sparse ⟨"sv", 1, true, false⟩ = true ∧
    Parthenon.writeIssued ⟨"sv", 1, true, false⟩ ⟨0, 0⟩ ⟨0, 0⟩ ⟨0, 0⟩
        ([⟨[]⟩, ⟨[⟨"sv", fun _ _ _ _ => (3 : ℤ)⟩]⟩] :
          List (Parthenon.LocalBlock ℤ)) = .ok true := by
  refine ⟨rfl, ?_⟩
  have h := C5_write_gate_local_found_any (α := ℤ) ⟨"sv", 1, true, false⟩
    ⟨0, 0⟩ ⟨0, 0⟩ ⟨0, 0⟩ [⟨[]⟩, ⟨[⟨"sv", fun _ _ _ _ => (3 : ℤ)⟩]⟩] rfl
  rw [h]
  rfl

/-- Claim C6: a reconciliation label buffer is split on the tab separator:
"alpha\tbeta\t" parses to exactly ["alpha", "beta"] (and in general a
buffer of nonempty tab-free labels each followed by a tab parses back to
that label list); a buffer with an empty label such as "alpha\t\tbeta\t"
is a fatal parse error; and a buffer whose remaining content has no
separator at the expected terminal position is a fatal parse error. -/
theorem C6_label_buffer_parsing :
    Parthenon.parseLabels "alpha\tbeta\t".data = .ok ["alpha", "beta"] ∧
    Parthenon.parseLabels "alpha\t\tbeta\t".data =
      .error "### ERROR: Got an empty label" ∧
    Parthenon.parseLabels "alpha\tbeta".data =
      .error "### ERROR: all_labels_buffer does not end with \t" ∧
    ∀ labels : List String,
      (∀ s ∈ labels, s.data ≠ [] ∧ ∀ x ∈ s.data, x ≠ '\t') →
      Parthenon.parseLabels (Parthenon.serializeLabels labels) = .ok labels := by
  refine ⟨?_, ?_, ?_, Parthenon.parseLabels_serializeLabels⟩
  · have h : "alpha\tbeta\t".data = Parthenon.serializeLabels ["alpha", "beta"] := by
      decide
    rw [h]
    exact Parthenon.parseLabels_serializeLabels ["alpha", "beta"] (by decide)
  · have h2 : Parthenon.parseLabels "\tbeta\t".data =
        .error "### ERROR: Got an empty label" := by
      rw [Parthenon.parseLabels]
      rw [if_neg (by decide), dif_neg (by decide), if_pos (by decide)]
    have h : "alpha\t\tbeta\t".data = "alpha".data ++ '\t' :: "\tbeta\t".data := by
      decide
    rw [h, Parthenon.parseLabels_append "alpha".data _ (by decide) (by decide), h2]
    rfl
  · have h2 : Parthenon.parseLabels "beta".data =
        .error "### ERROR: all_labels_buffer does not end with \t" := by
      rw [Parthenon.parseLabels]
      rw [if_neg (by decide), dif_pos (by decide)]
    have h : "alpha\tbeta".data = "alpha".data ++ '\t' :: "beta".data := by
      decide
    rw [h, Parthenon.parseLabels_append "alpha".data _ (by decide) (by decide), h2]
    rfl

/-- Witness for the universally quantified part of C6 at a concrete label
list. -/
theorem C6_label_buffer_parsing_witness :
    (∀ s ∈ (["x", "yz"] : List String), s.data ≠ [] ∧ ∀ x ∈ s.data, x ≠ '\t') ∧
    Parthenon.parseLabels (Parthenon.serializeLabels ["x", "yz"]) =
      .ok ["x", "yz"] :=
  ⟨by decide, C6_label_buffer_parsing.2.2.2 ["x", "yz"] (by decide)⟩

/-- Claim C9: rank r's offset in the block dimension of every dataset is the
prefix sum of the block counts of ranks 0 .. r-1 (0 for rank 0), and the
offsets of all other dataset dimensions are 0. -/
theorem C9_offsets_prefix_sum (nblist : List Nat) (r : Nat) :
    Parthenon.localOffset nblist r =
      [(nblist.take r).sum, 0, 0, 0, 0] ∧
      Parthenon.myOffset nblist 0 = 0 := by
  refine ⟨?_, rfl⟩
  rw [Parthenon.localOffset, Parthenon.myOffset_eq_sum_take]
